import Mathlib

/-!
Verification of the text-extraction core of `vec_search_demo`.

Python strings are modelled as `List Char` (`PyStr`); machine details such
as file handles are modelled by explicit data, and calls into external
libraries (fitz, ocrmypdf, pandas, re, BeautifulSoup) are modelled as
oracle parameters.  All definitions are transcribed from the repository
sources under `src/`; the doc comment of each definition names the Python
function it embeds.
-/

set_option maxRecDepth 8000

/-- A Python `str` value, modelled as its list of Unicode code points. -/
abbrev PyStr := List Char

/-- Convert a Lean string literal into the `PyStr` model. -/
def pystr (s : String) : PyStr := s.toList

/-- A character is in the ASCII range (code point below 128). -/
def isAsciiChar (c : Char) : Bool := c.toNat < 128

/-- Every character of the string is ASCII. -/
def allAscii (s : PyStr) : Bool := s.all isAsciiChar

/-- Python `str.replace(pat, rep)` for a one-character pattern, which is the
only form the sources use. -/
def pyReplace1 (pat : Char) (rep : PyStr) : PyStr → PyStr
  | [] => []
  | c :: rest => (if c = pat then rep else [c]) ++ pyReplace1 pat rep rest

/-- The whitespace class of Python `str.split()` / `str.strip()` (ASCII
whitespace plus the Unicode space characters Python treats as whitespace). -/
def isPySpace (c : Char) : Bool :=
  (9 ≤ c.toNat && c.toNat ≤ 13) || c = ' ' ||
  (28 ≤ c.toNat && c.toNat ≤ 31) || c.toNat = 0x85 || c.toNat = 0xA0 ||
  c.toNat = 0x1680 || (0x2000 ≤ c.toNat && c.toNat ≤ 0x200A) ||
  c.toNat = 0x2028 || c.toNat = 0x2029 || c.toNat = 0x202F ||
  c.toNat = 0x205F || c.toNat = 0x3000

/-- Python `str.split()` with no separator: split on runs of whitespace,
dropping empty fields. -/
def pySplitWs : PyStr → List PyStr
  | [] => []
  | c :: rest =>
      if isPySpace c then pySplitWs rest
      else (c :: rest.takeWhile (fun d => !isPySpace d)) ::
             pySplitWs (rest.dropWhile (fun d => !isPySpace d))
  termination_by s => s.length
  decreasing_by
    · simp
    · have h := (List.dropWhile_suffix (l := rest) (fun d => !isPySpace d)).length_le
      simp only [List.length_cons]
      omega

/-- Python `" ".join(xs)`: the fields joined by single spaces. -/
def pyJoinSpace : List PyStr → PyStr
  | [] => []
  | [w] => w
  | w :: w2 :: rest => w ++ ' ' :: pyJoinSpace (w2 :: rest)

/-- Python `str.strip()`: remove leading and trailing whitespace. -/
def pyStrip (s : PyStr) : PyStr :=
  ((s.dropWhile isPySpace).reverse.dropWhile isPySpace).reverse

/-- Python `str.lower()` restricted to the ASCII letters, the only ones the
sources lowercase (file extensions and exception messages). -/
def pyLower (s : PyStr) : PyStr := s.map Char.toLower

/-- Python's substring test `needle in hay`. -/
def pyIn (needle : PyStr) : PyStr → Bool
  | [] => needle.isEmpty
  | c :: rest => needle.isPrefixOf (c :: rest) || pyIn needle rest

/-- Python `str.lstrip(ch)` for a one-character argument. -/
def pyLstrip (ch : Char) (s : PyStr) : PyStr := s.dropWhile (· = ch)

/-! ## `text_extraction/extraction_utils.py` — normalization utilities

The Unicode tables below model the parts of the CPython `unicodedata`
module and of the `unidecode` package that the normalization functions
call.  They cover the canonical decomposition / composition of the Latin
precomposed letters the pipeline is exercised on; characters outside the
tables decompose to themselves, exactly as code points without a canonical
decomposition do. -/

/-- Model of the canonical decomposition used by `unicodedata.normalize("NFD", ...)`:
precomposed Latin letters split into base letter + combining mark. -/
def decompTable : List (Char × PyStr) :=
  [('á', ['a', '́']), ('à', ['a', '̀']),
   ('â', ['a', '̂']), ('ä', ['a', '̈']),
   ('é', ['e', '́']), ('è', ['e', '̀']),
   ('ê', ['e', '̂']), ('ë', ['e', '̈']),
   ('í', ['i', '́']), ('ó', ['o', '́']),
   ('ú', ['u', '́']), ('ñ', ['n', '̃']),
   ('ç', ['c', '̧']), ('É', ['E', '́'])]

/-- Canonical decomposition of one character (identity outside `decompTable`). -/
def canonDecomp (c : Char) : PyStr :=
  match decompTable.find? (fun e => e.1 = c) with
  | some e => e.2
  | none => [c]

/-- Model of `unicodedata.normalize("NFD", s)`. -/
def nfd (s : PyStr) : PyStr := s.foldr (fun c acc => canonDecomp c ++ acc) []

/-- Model of `unicodedata.category(c).startswith("M")`: the combining
diacritical marks block. -/
def pyCategoryIsM (c : Char) : Bool := 0x300 ≤ c.toNat && c.toNat ≤ 0x36F

/-- Model of the canonical composition pairs used by
`unicodedata.normalize("NFC", ...)` (inverse of `decompTable`). -/
def composeTable : List ((Char × Char) × Char) :=
  decompTable.filterMap (fun e =>
    match e.2 with
    | [b, m] => some ((b, m), e.1)
    | _ => none)

/-- Compose a base character with a following combining mark, when the pair
has a canonical precomposed form. -/
def canonCompose (a b : Char) : Option Char :=
  (composeTable.find? (fun e => e.1.1 = a && e.1.2 = b)).map (·.2)

/-- Model of `unicodedata.normalize("NFC", s)`: left-to-right canonical
composition of base + combining-mark pairs. -/
def nfc : PyStr → PyStr
  | [] => []
  | [a] => [a]
  | a :: b :: rest =>
      match canonCompose a b with
      | some c => nfc (c :: rest)
      | none => a :: nfc (b :: rest)
  termination_by s => s.length
  decreasing_by
    · simp
    · simp

/-- Model of the `unidecode` transliteration table for the non-ASCII
characters it is exercised on; `unidecode` is the identity on ASCII and
transliterates (or drops) everything else, always producing ASCII. -/
def unidecodeTable : List (Char × PyStr) :=
  [('œ', ['o', 'e']), ('Œ', ['O', 'E']),
   ('ß', ['s', 's']), ('°', ['d', 'e', 'g']),
   ('©', ['(', 'c', ')'])]

/-- Model of `unidecode.unidecode` on a single character. -/
def unidecodeChar (c : Char) : PyStr :=
  if c.toNat < 128 then [c]
  else
    match unidecodeTable.find? (fun e => e.1 = c) with
    | some e => e.2
    | none => []

/-- `extraction_utils.common_char_replacements`: sequentially apply
`str.replace` for each entry of the replacement dict, in dict order. -/
def replacements_dict : List (Char × PyStr) :=
  [('“', ['"']), ('”', ['"']),
   ('‘', ['\x27']), ('’', ['\x27']),
   ('–', ['-']), ('—', ['-']),
   (' ', [' ']), ('…', ['.', '.', '.']),
   ('ﬁ', ['f', 'i']), ('ﬂ', ['f', 'l']),
   ('\u0000', [])]

/-- `extraction_utils.common_char_replacements`. -/
def common_char_replacements (text : PyStr) : PyStr :=
  replacements_dict.foldl (fun t e => pyReplace1 e.1 e.2 t) text

/-- `extraction_utils.strip_diacritics`.  The `hasUnidecode` flag models the
module-level `_HAS_UNIDECODE` constant (whether the optional `unidecode`
package imported successfully). -/
def strip_diacritics (hasUnidecode : Bool) (text : PyStr) : PyStr :=
  let nfkd := nfd text
  let no_diacritics := nfkd.filter (fun c => !(pyCategoryIsM c))
  let cleaned := nfc no_diacritics
  if hasUnidecode then
    cleaned.foldr (fun c acc => unidecodeChar c ++ acc) []
  else
    cleaned.filter isAsciiChar

/-- `extraction_utils.normalize_whitespace`: `" ".join(text.split())`. -/
def normalize_whitespace (text : PyStr) : PyStr := pyJoinSpace (pySplitWs text)

/-- `extraction_utils.normalize_unicode`: `unicodedata.normalize("NFC", text)`. -/
def normalize_unicode (text : PyStr) : PyStr := nfc text

/-! ## `app.py` — orchestration: extraction followed by normalization -/

/-- The in-order normalization chain of `app.extract_and_normalize_text`
(the body of its `if text:` branch). -/
def normalizationChain (hasUnidecode : Bool) (text : PyStr) : PyStr :=
  normalize_whitespace (normalize_unicode
    (strip_diacritics hasUnidecode (common_char_replacements text)))

/-- `app.extract_and_normalize_text`, given the raw text the selected
extractor returned.  `text or ""` maps a falsy (empty) result to `""`. -/
def extract_and_normalize_text (hasUnidecode : Bool) (extracted : PyStr) : PyStr :=
  let text := if extracted.isEmpty then extracted else normalizationChain hasUnidecode extracted
  if text.isEmpty then [] else text

/-- Exceptions of the modelled Python code. -/
inductive PyErr
  | fileNotFoundError
  | valueError
  | attributeError
  | keyError
  | raised (msg : PyStr)
deriving DecidableEq, Repr

/-- Outcome of the extraction part of `app.index_post`: either the
distinguished "no text could be extracted" message or a query text to embed. -/
inductive IndexOutcome
  | noTextError
  | proceed (query : PyStr)
deriving DecidableEq, Repr

/-- The post-extraction decision of `app.index_post` (`if not query_text or
not query_text.strip(): error = "no text could be extracted from that
file."`), given the outcome of `extract_and_normalize_text` run on the
extractor's raw result (`.error` when extraction itself raised). -/
def index_post_extraction (hasUnidecode : Bool) (extraction : Except PyErr PyStr) :
    Except PyErr IndexOutcome :=
  match extraction with
  | .error e => .error e
  | .ok raw =>
      let query_text := extract_and_normalize_text hasUnidecode raw
      if query_text.isEmpty || (pyStrip query_text).isEmpty then
        .ok .noTextError
      else
        .ok (.proceed query_text)

/-! ## `text_extraction/basic_extraction.py` — dispatch, text files, dates -/

/-- Model of `pathlib.Path(p).name`: the final path component, with trailing
separators removed first (Windows drive-letter handling is not modelled). -/
def pathName (path : PyStr) : PyStr :=
  let isSep : Char → Bool := fun c => c = '/' || c = '\\'
  let trimmed := (path.reverse.dropWhile isSep).reverse
  (trimmed.foldl (fun acc c => if isSep c then [] else acc ++ [c]) [])

/-- Model of `pathlib.Path(p).suffix`: `name[i:]` for `i = name.rfind(".")`
when `0 < i < len(name) - 1`, else the empty string. -/
def pathSuffix (path : PyStr) : PyStr :=
  let name := pathName path
  match (name.reverse.takeWhile (fun c => c ≠ '.')).length, name.reverse with
  | _, [] => []
  | k, _ =>
      -- rfind(".") = len(name) - 1 - k  when a dot exists, else -1
      if k = name.length then []                 -- no dot at all
      else
        let i := name.length - 1 - k
        if 0 < i ∧ i < name.length - 1 then name.drop i else []

/-- An extractor as seen by the dispatch coordinator: its declared
`file_extensions` class attribute plus an identifying tag. -/
structure ExtractorRef where
  tag : Nat
  file_extensions : List PyStr
deriving DecidableEq, Repr

/-- `basic_extraction.get_extractor_for_file`: compute
`Path(file_path).suffix.lower().lstrip(".")` and return the first extractor
in list order whose `file_extensions` contains it, else `None`. -/
def get_extractor_for_file (file_path : PyStr) (extractors : List ExtractorRef) :
    Option ExtractorRef :=
  let file_extension := pyLstrip '.' (pyLower (pathSuffix file_path))
  match extractors with
  | [] => none
  | e :: rest =>
      if file_extension ∈ e.file_extensions then some e
      else get_extractor_for_file file_path rest

/-- The codecs `TextFileTextExtractor.__init__` configures. -/
inductive PyEncoding
  | utf8
  | latin1
  | cp1252
  | ascii
deriving DecidableEq, Repr

/-- Decode one windows-1252 byte from the 0x80–0x9F block (the other bytes
coincide with latin-1); `none` on the five unassigned bytes. -/
def cp1252High (b : Nat) : Option Char :=
  match b with
  | 0x80 => some '€' | 0x82 => some '‚' | 0x83 => some 'ƒ'
  | 0x84 => some '„' | 0x85 => some '…' | 0x86 => some '†'
  | 0x87 => some '‡' | 0x88 => some 'ˆ' | 0x89 => some '‰'
  | 0x8A => some 'Š' | 0x8B => some '‹' | 0x8C => some 'Œ'
  | 0x8E => some 'Ž' | 0x91 => some '‘' | 0x92 => some '’'
  | 0x93 => some '“' | 0x94 => some '”' | 0x95 => some '•'
  | 0x96 => some '–' | 0x97 => some '—' | 0x98 => some '˜'
  | 0x99 => some '™' | 0x9A => some 'š' | 0x9B => some '›'
  | 0x9C => some 'œ' | 0x9E => some 'ž' | 0x9F => some 'Ÿ'
  | _ => none

/-- Strict UTF-8 decoding of a byte list (rejects overlong forms,
surrogates and out-of-range code points, as CPython's `utf-8` codec does). -/
def utf8Decode : List Nat → Option PyStr
  | [] => some []
  | b :: rest =>
      if b < 0x80 then (utf8Decode rest).map (Char.ofNat b :: ·)
      else if b < 0xC2 then none
      else if b < 0xE0 then
        match rest with
        | c :: rest2 =>
            if 0x80 ≤ c ∧ c < 0xC0 then
              (utf8Decode rest2).map (Char.ofNat ((b - 0xC0) * 64 + (c - 0x80)) :: ·)
            else none
        | [] => none
      else if b < 0xF0 then
        match rest with
        | c :: d :: rest2 =>
            if (0x80 ≤ c ∧ c < 0xC0) ∧ (0x80 ≤ d ∧ d < 0xC0) ∧
               (b ≠ 0xE0 ∨ 0xA0 ≤ c) ∧ (b ≠ 0xED ∨ c < 0xA0) then
              (utf8Decode rest2).map
                (Char.ofNat ((b - 0xE0) * 4096 + (c - 0x80) * 64 + (d - 0x80)) :: ·)
            else none
        | _ => none
      else if b < 0xF5 then
        match rest with
        | c :: d :: e :: rest2 =>
            if (0x80 ≤ c ∧ c < 0xC0) ∧ (0x80 ≤ d ∧ d < 0xC0) ∧ (0x80 ≤ e ∧ e < 0xC0) ∧
               (b ≠ 0xF0 ∨ 0x90 ≤ c) ∧ (b ≠ 0xF4 ∨ c < 0x90) then
              (utf8Decode rest2).map
                (Char.ofNat ((b - 0xF0) * 262144 + (c - 0x80) * 4096 +
                  (d - 0x80) * 64 + (e - 0x80)) :: ·)
            else none
        | _ => none
      else none

/-- Decode a byte list under one of the configured codecs, `none` modelling
a `UnicodeDecodeError`. -/
def decodeBytes : PyEncoding → List Nat → Option PyStr
  | .utf8, bs => utf8Decode bs
  | .latin1, bs => bs.mapM (fun b => if b < 256 then some (Char.ofNat b) else none)
  | .cp1252, bs =>
      bs.mapM (fun b =>
        if b < 0x80 then some (Char.ofNat b)
        else if b < 0xA0 then cp1252High b
        else if b < 256 then some (Char.ofNat b)
        else none)
  | .ascii, bs => bs.mapM (fun b => if b < 0x80 then some (Char.ofNat b) else none)

/-- A plain-text file as `TextFileTextExtractor.__call__` sees it: its raw
bytes and the (already validated) path's suffix. -/
structure TextFileInput where
  bytes : List Nat
  suffix : PyStr
deriving Repr

/-- `TextFileTextExtractor` instance state: the `self.encodings` attribute. -/
structure TextFileTextExtractor where
  encodings : List PyEncoding
deriving Repr

/-- `TextFileTextExtractor.__init__`. -/
def TextFileTextExtractor.init : TextFileTextExtractor :=
  ⟨[.utf8, .latin1, .cp1252, .ascii]⟩

/-- Per-suffix post-processing of the decoded content in
`TextFileTextExtractor.__call__`: `.xml` is stripped via `strip_html(...,
parser="xml")`, `.md` is converted by `markdown.markdown` then stripped;
both library calls are oracle parameters.  Everything else is returned
verbatim. -/
def textActionForSuffix (stripXml mdToText : PyStr → PyStr) (suffix content : PyStr) : PyStr :=
  if pyLower suffix = pystr ".xml" then stripXml content
  else if pyLower suffix = pystr ".md" then mdToText content
  else content

/-- The encoding loop of `TextFileTextExtractor.__call__`: try each codec in
order, continuing on `UnicodeDecodeError`, and raise
`ValueError("Unable to read file with supported encodings: ...")` when the
list is exhausted. -/
def tryEncodings (stripXml mdToText : PyStr → PyStr) (f : TextFileInput) :
    List PyEncoding → Except PyErr PyStr
  | [] => .error .valueError
  | enc :: rest =>
      match decodeBytes enc f.bytes with
      | some content => .ok (textActionForSuffix stripXml mdToText f.suffix content)
      | none => tryEncodings stripXml mdToText f rest

/-- `TextFileTextExtractor.__call__` on an already-validated file. -/
def TextFileTextExtractor.call (self : TextFileTextExtractor)
    (stripXml mdToText : PyStr → PyStr) (f : TextFileInput) : Except PyErr PyStr :=
  tryEncodings stripXml mdToText f self.encodings

/-- `DateExtractor` instance state (set by `__init__`). -/
structure DateExtractor where
  year_min : Int
  year_max : Int
  enable_dmy : Bool
  yy_pivot : Int
deriving Repr

/-- `DateExtractor.__init__` with its default arguments. -/
def DateExtractor.init (year_min : Int := 1960) (year_max : Int := 2035)
    (enable_dmy : Bool := false) (yy_pivot : Int := 60) : DateExtractor :=
  ⟨year_min, year_max, enable_dmy, yy_pivot⟩

/-- `DateExtractor._normalize_yy`. -/
def DateExtractor.normalize_yy (self : DateExtractor) (yy : Int) : Int :=
  if yy ≥ self.yy_pivot then 1900 + yy else 2000 + yy

/-- Gregorian leap-year rule, as `datetime.date` uses. -/
def isLeapYear (y : Int) : Bool := y % 4 = 0 && (y % 100 ≠ 0 || y % 400 = 0)

/-- Days in a month, as `datetime.date` validates. -/
def daysInMonth (y m : Int) : Int :=
  if m = 2 then (if isLeapYear y then 29 else 28)
  else if m = 4 ∨ m = 6 ∨ m = 9 ∨ m = 11 then 30
  else 31

/-- A constructed `datetime.date` value. -/
structure PyDate where
  year : Int
  month : Int
  day : Int
deriving DecidableEq, Repr

/-- The validity check `datetime.date(y, m, d)` performs (raising
`ValueError` otherwise). -/
def isValidPyDate (y m d : Int) : Bool :=
  1 ≤ y && y ≤ 9999 && 1 ≤ m && m ≤ 12 && 1 ≤ d && d ≤ daysInMonth y m

/-- `DateExtractor._safe_date`: `datetime.date(y, m, d)` with `ValueError`
mapped to `None`. -/
def DateExtractor.safe_date (y m d : Int) : Option PyDate :=
  if isValidPyDate y m d then some ⟨y, m, d⟩ else none

/-- `DateExtractor.month_to_number_map` lookup (three-letter keys
`jan` … `dec` mapped to 1 … 12). -/
def month_to_number_map (key : PyStr) : Option Int :=
  (([pystr "jan", pystr "feb", pystr "mar", pystr "apr", pystr "may", pystr "jun",
     pystr "jul", pystr "aug", pystr "sep", pystr "oct", pystr "nov",
     pystr "dec"].indexOf? key).map (fun i => (i : Int) + 1))

/-- The `re.findall` results of the five compiled patterns of
`DateExtractor`, modelled as oracle data.  The numeric captures are given
after the `int()` conversion the source applies; the month-name capture of
`rx_mon` is kept as a string because the source indexes
`month_to_number_map` with `mon[:3].lower()`. -/
structure DateMatches where
  iso : List (Int × Int × Int)          -- (y, m, d) captures of rx_iso
  mdy4 : List (Int × Int × Int)         -- (m, d, y) captures of rx_mdy4
  mdy2 : List (Int × Int × Int)         -- (m, d, yy) captures of rx_mdy2
  dmy4 : List (Int × Int × Int)         -- (d, m, y) captures of rx_dmy4
  mon : List (PyStr × Int × Int)        -- (monthName, d, y) captures of rx_mon
deriving Repr

/-- The final validate-and-filter loop of `DateExtractor.__call__`. -/
def dateValidateFilter (self : DateExtractor) : List (Int × Int × Int) → List PyDate
  | [] => []
  | (y, m, d) :: rest =>
      match DateExtractor.safe_date y m d with
      | some dt =>
          if self.year_min ≤ dt.year ∧ dt.year ≤ self.year_max then
            dt :: dateValidateFilter self rest
          else dateValidateFilter self rest
      | none => dateValidateFilter self rest

/-- `DateExtractor.__call__`, with the regex-match results as oracle input.
The `month_to_number_map[...]` subscript raises `KeyError` when the key is
absent. -/
def DateExtractor.call (self : DateExtractor) (txt : PyStr) (ms : DateMatches) :
    Except PyErr (List PyDate) :=
  if txt.isEmpty then .ok []
  else
    match ms.mon.mapM (fun e =>
        match month_to_number_map (pyLower (e.1.take 3)) with
        | some m => some (e.2.2, m, e.2.1)
        | none => none) with
    | none => .error .keyError
    | some monCandidates =>
        let candidates :=
          ms.iso.map (fun e => (e.1, e.2.1, e.2.2)) ++
          ms.mdy4.map (fun e => (e.2.2, e.1, e.2.1)) ++
          ms.mdy2.map (fun e => (self.normalize_yy e.2.2, e.1, e.2.1)) ++
          (if self.enable_dmy then ms.dmy4.map (fun e => (e.2.2, e.2.1, e.1)) else []) ++
          monCandidates
        .ok (dateValidateFilter self candidates)

/-! ## `text_extraction/pdf_extraction.py` — PDF extraction with OCR fallback -/

/-- The `PDFFile` handle after `__init__`: metadata read from the opened
document plus the (initially empty) `property_cache`, modelled by one
`Option` slot per cached property.  Page rectangles are kept in PDF points
(`page.rect.width/height`), as rationals. -/
structure PDFFile where
  page_count : Nat
  is_encrypted : Bool
  size : Nat
  pageRectsPt : List (ℚ × ℚ)
  cachePagesDims : Option (List (ℚ × ℚ))
  cacheHasLargeFormat : Option Bool

/-- `PDFFile.pt_to_in`: divide by 72. -/
def PDFFile.pt_to_in (pt : ℚ) : ℚ := pt / 72

/-- `PDFFile._is_large_format_page` with its default thresholds. -/
def PDFFile.is_large_format_page (w h : ℚ) (long_edge_thresh : ℚ := 24)
    (area_thresh : ℚ := 800) : Bool :=
  let long_edge := max w h
  let area := w * h
  decide (long_edge ≥ long_edge_thresh) || decide (area ≥ area_thresh)

/-- The `PDFFile.pages_dims` property: per-page (width, height) in inches,
computed from the page rectangles and cached. -/
def PDFFile.pages_dims (pdf : PDFFile) : List (ℚ × ℚ) :=
  match pdf.cachePagesDims with
  | some dims => dims
  | none => pdf.pageRectsPt.map (fun r => (PDFFile.pt_to_in r.1, PDFFile.pt_to_in r.2))

/-- The scan loop inside the `PDFFile.has_large_format` property: `True` as
soon as one page is large format, else `False`. -/
def hasLargeFormatScan : List (ℚ × ℚ) → Bool
  | [] => false
  | (w, h) :: rest =>
      if PDFFile.is_large_format_page w h then true else hasLargeFormatScan rest

/-- The `PDFFile.has_large_format` property (cache consulted first). -/
def PDFFile.has_large_format (pdf : PDFFile) : Bool :=
  match pdf.cacheHasLargeFormat with
  | some b => b
  | none => hasLargeFormatScan pdf.pages_dims

/-- `PDFFile.__init__` for a file `fitz` opened successfully: caches start
empty. -/
def PDFFile.init (page_count : Nat) (is_encrypted : Bool) (size : Nat)
    (pageRectsPt : List (ℚ × ℚ)) : PDFFile :=
  ⟨page_count, is_encrypted, size, pageRectsPt, none, none⟩

/-- The `ocrmypdf` keyword dict built by `PDFTextExtractor`; the two fields
the escalation logic tests with Python truthiness are `Option Nat` (absent
or `0` both being falsy). -/
structure OcrParams where
  max_image_mpixels : Option Nat
  rotate_pages : Bool
  deskew : Bool
  invalidate_digital_signatures : Bool
  skip_text : Bool
  language : PyStr
  jobs : Nat
  optimize : Nat
  output_type : PyStr
  tesseract_timeout : Option Nat
deriving DecidableEq, Repr

/-- Python truthiness test `not d.get(key, None)` for an optional integer
entry: true when the key is absent or its value is `0`. -/
def optFalsy : Option Nat → Bool
  | none => true
  | some n => n = 0

/-- `PDFTextExtractor` instance state. -/
structure PDFTextExtractor where
  ocr_params : OcrParams
  max_stream_size : Nat

/-- `PDFTextExtractor.__init__`; `cpuCount` models `os.cpu_count()`. -/
def PDFTextExtractor.init (cpuCount : Nat) : PDFTextExtractor :=
  { ocr_params :=
      { max_image_mpixels := some 250
        rotate_pages := true
        deskew := true
        invalidate_digital_signatures := true
        skip_text := true
        language := pystr "eng"
        jobs := max (cpuCount - 1) 1
        optimize := 0
        output_type := pystr "pdf"
        tesseract_timeout := some 300 }
    max_stream_size := 100 * 1024 * 1024 }

/-- Result of `PDFTextExtractor._fitz_doc_text`: the returned text, and the
parameter dict passed to `extract_text_with_ocr` when OCR was invoked
(`none` when it was not). -/
structure FitzDocTextResult where
  text : PyStr
  ocrCall : Option OcrParams
deriving Repr

/-- `PDFTextExtractor._fitz_doc_text`.  `pageTexts` are the
`page.get_text()` results of the opened document; `ocrOracle` models
`extract_text_with_ocr` (ocrmypdf + re-read), mapping the parameter dict to
the text of the OCR'd PDF. -/
def PDFTextExtractor.fitz_doc_text (self : PDFTextExtractor)
    (pageTexts : List PyStr) (pdf_document : PDFFile)
    (ocrOracle : OcrParams → PyStr) : FitzDocTextResult :=
  let ocr_needed_length_threshold := 100
  let pdf_text := pageTexts.foldl (fun acc t => acc ++ t) []
  if pdf_text.length ≥ ocr_needed_length_threshold then
    { text := pdf_text, ocrCall := none }
  else
    let p1 :=
      if optFalsy self.ocr_params.tesseract_timeout then
        { self.ocr_params with
            tesseract_timeout := some (min 300 (pdf_document.page_count * 45)) }
      else self.ocr_params
    let p2 :=
      if optFalsy p1.max_image_mpixels then
        { p1 with
            max_image_mpixels := some (if pdf_document.has_large_format then 1000 else 300) }
      else p1
    { text := ocrOracle p2, ocrCall := some p2 }

/-- The parameter dict `_fitz_doc_text` hands to `extract_text_with_ocr`
when OCR is triggered: the two adaptive-defaulting steps of the source,
factored out for reuse in statements. -/
def ocrEscalatedParams (self : PDFTextExtractor) (pdf_document : PDFFile) : OcrParams :=
  let p1 :=
    if optFalsy self.ocr_params.tesseract_timeout then
      { self.ocr_params with
          tesseract_timeout := some (min 300 (pdf_document.page_count * 45)) }
    else self.ocr_params
  if optFalsy p1.max_image_mpixels then
    { p1 with
        max_image_mpixels := some (if pdf_document.has_large_format then 1000 else 300) }
  else p1

/-- A PDF file on disk, as `PDFTextExtractor.__call__` probes it:
`validate_file` checks existence and regular-file-ness, `fitz.open` reports
whether it is a PDF container, then metadata and page texts are read. -/
structure PdfInput where
  pathExists : Bool
  isFile : Bool
  isPdf : Bool
  isEncrypted : Bool
  sizeBytes : Nat
  pageCount : Nat
  pageRectsPt : List (ℚ × ℚ)
  pageTexts : List PyStr

/-- Observable trace of one `PDFTextExtractor.__call__`: the outcome, and
whether the direct text-extraction phase (`_fitz_doc_text`) was entered and
OCR invoked. -/
structure PdfCallTrace where
  result : Except PyErr PyStr
  extractionEntered : Bool
  ocrCall : Option OcrParams

/-- `PDFTextExtractor.__call__`: validate, construct the `PDFFile` handle,
reject encrypted documents, then run `_fitz_doc_text` (in-memory or via a
temp-file copy depending on size — both branches behave identically up to
the untracked copy). -/
def PDFTextExtractor.call (self : PDFTextExtractor) (input : PdfInput)
    (ocrOracle : OcrParams → PyStr) : PdfCallTrace :=
  if ¬ (input.pathExists ∧ input.isFile) then
    -- validate_file raises FileNotFoundError
    { result := .error .fileNotFoundError, extractionEntered := false, ocrCall := none }
  else if ¬ input.isPdf then
    -- PDFFile.__init__ raises ValueError
    { result := .error .valueError, extractionEntered := false, ocrCall := none }
  else
    let pdf := PDFFile.init input.pageCount input.isEncrypted input.sizeBytes input.pageRectsPt
    if pdf.is_encrypted then
      { result := .error .valueError, extractionEntered := false, ocrCall := none }
    else if pdf.size ≤ self.max_stream_size then
      let r := self.fitz_doc_text input.pageTexts pdf ocrOracle
      { result := .ok r.text, extractionEntered := true, ocrCall := r.ocrCall }
    else
      let r := self.fitz_doc_text input.pageTexts pdf ocrOracle
      { result := .ok r.text, extractionEntered := true, ocrCall := r.ocrCall }

/-! ## `text_extraction/office_doc_extraction.py` — spreadsheet extractor -/

/-- `SpreadsheetTextExtractor` instance state.  The fields are exactly the
attributes `__init__` assigns; `fallback_extractor` models the attribute
slot of that name, which `__init__` never assigns (`none` = attribute
absent, so that reading it raises `AttributeError`). -/
structure SpreadsheetTextExtractor where
  sheets : PyStr
  include_headers : Bool
  include_formulas : Bool
  max_rows : Option Nat
  max_cols : Option Nat
  delimiter : PyStr
  fallback_extractor : Option (PyStr → PyStr)

/-- `SpreadsheetTextExtractor.__init__` with its default arguments: no
statement assigns `fallback_extractor`. -/
def SpreadsheetTextExtractor.init (sheets : PyStr := pystr "all")
    (include_headers : Bool := true) (include_formulas : Bool := false)
    (max_rows : Option Nat := some 5000) (max_cols : Option Nat := some 50)
    (delimiter : PyStr := pystr "\t") : SpreadsheetTextExtractor :=
  { sheets := sheets
    include_headers := include_headers
    include_formulas := include_formulas
    max_rows := max_rows
    max_cols := max_cols
    delimiter := delimiter
    fallback_extractor := none }

/-- `SpreadsheetTextExtractor.__call__` on a validated file, with the
`_read_delimited` / `_read_excel_like` body as oracle input (`.error msg`
models an exception with message `msg`).  In the handler,
`"zip file" in str(e).lower()` is evaluated first; only when it is true is
`self.fallback_extractor` read — which raises `AttributeError` when the
attribute was never assigned. -/
def SpreadsheetTextExtractor.call (self : SpreadsheetTextExtractor)
    (path : PyStr) (readResult : Except PyStr PyStr) : Except PyErr PyStr :=
  match readResult with
  | .ok text => .ok text
  | .error msg =>
      if pyIn (pystr "zip file") (pyLower msg) then
        match self.fallback_extractor with
        | none => .error .attributeError
        | some f => .ok (f path)
      else
        .error (.raised msg)

/-! ## Supporting lemmas: whitespace normalization -/

set_option maxHeartbeats 2000000 in
/-- Unfolding `pySplitWs` at a leading whitespace character. -/
theorem pySplitWs_cons_space {c : Char} {rest : PyStr} (h : isPySpace c = true) :
    pySplitWs (c :: rest) = pySplitWs rest := by
  rw [pySplitWs]
  simp only [h, if_true]

/-- Unfolding `pySplitWs` at a leading non-whitespace character. -/
theorem pySplitWs_cons_word {c : Char} {rest : PyStr} (h : isPySpace c = false) :
    pySplitWs (c :: rest) =
      (c :: rest.takeWhile (fun d => !isPySpace d)) ::
        pySplitWs (rest.dropWhile (fun d => !isPySpace d)) := by
  rw [pySplitWs]
  simp [h]

/-- Words produced by `pySplitWs` are nonempty and whitespace-free. -/
theorem pySplitWs_words_good (s : PyStr) :
    ∀ w ∈ pySplitWs s, w ≠ [] ∧ ∀ c ∈ w, isPySpace c = false := by
  induction s using pySplitWs.induct with
  | case1 => intro w hw; rw [pySplitWs] at hw; simp at hw
  | case2 c rest h ih =>
      intro w hw
      rw [pySplitWs_cons_space h] at hw
      exact ih w hw
  | case3 c rest h ih =>
      intro w hw
      rw [pySplitWs_cons_word (by simpa using h)] at hw
      rcases List.mem_cons.mp hw with h1 | h2
      · subst h1
        refine ⟨by simp, ?_⟩
        intro d hd
        rcases List.mem_cons.mp hd with rfl | hd2
        · simpa using h
        · simpa using List.mem_takeWhile_imp hd2
      · exact ih w h2

/-- Every character of a `pySplitWs` word comes from the input string. -/
theorem pySplitWs_words_subset (s : PyStr) :
    ∀ w ∈ pySplitWs s, ∀ c ∈ w, c ∈ s := by
  induction s using pySplitWs.induct with
  | case1 => intro w hw; rw [pySplitWs] at hw; simp at hw
  | case2 c rest h ih =>
      intro w hw d hd
      rw [pySplitWs_cons_space h] at hw
      exact List.mem_cons_of_mem _ (ih w hw d hd)
  | case3 c rest h ih =>
      intro w hw d hd
      rw [pySplitWs_cons_word (by simpa using h)] at hw
      rcases List.mem_cons.mp hw with h1 | h2
      · subst h1
        rcases List.mem_cons.mp hd with rfl | hd2
        · exact List.mem_cons_self _ _
        · exact List.mem_cons_of_mem _ ((List.takeWhile_sublist _).subset hd2)
      · have hmem := ih w h2 d hd
        exact List.mem_cons_of_mem _ ((List.dropWhile_sublist _).subset hmem)

/-- Every character of a joined string is a space or comes from a field. -/
theorem mem_pyJoinSpace (ws : List PyStr) (c : Char) (hc : c ∈ pyJoinSpace ws) :
    c = ' ' ∨ ∃ w ∈ ws, c ∈ w := by
  induction ws with
  | nil => simp [pyJoinSpace] at hc
  | cons w rest ih =>
      cases rest with
      | nil =>
          right
          exact ⟨w, by simp, by simpa [pyJoinSpace] using hc⟩
      | cons w2 rest2 =>
          have hc2 : c ∈ w ++ ' ' :: pyJoinSpace (w2 :: rest2) := hc
          rcases List.mem_append.mp hc2 with h1 | h2
          · exact Or.inr ⟨w, by simp, h1⟩
          · rcases List.mem_cons.mp h2 with rfl | h3
            · exact Or.inl rfl
            · rcases ih h3 with h4 | ⟨w', hw', hcw'⟩
              · exact Or.inl h4
              · exact Or.inr ⟨w', by simp [hw'], hcw'⟩

/-- `takeWhile` walks past a block that satisfies the predicate. -/
theorem takeWhile_append_all (p : Char → Bool) (l1 l2 : PyStr)
    (h : ∀ c ∈ l1, p c = true) :
    (l1 ++ l2).takeWhile p = l1 ++ l2.takeWhile p := by
  induction l1 with
  | nil => simp
  | cons a t ih =>
      have ha : p a = true := h a (by simp)
      simp only [List.cons_append, List.takeWhile_cons, ha]
      simp [ih (fun c hc => h c (by simp [hc]))]

/-- `dropWhile` walks past a block that satisfies the predicate. -/
theorem dropWhile_append_all (p : Char → Bool) (l1 l2 : PyStr)
    (h : ∀ c ∈ l1, p c = true) :
    (l1 ++ l2).dropWhile p = l2.dropWhile p := by
  induction l1 with
  | nil => simp
  | cons a t ih =>
      have ha : p a = true := h a (by simp)
      simp only [List.cons_append, List.dropWhile_cons, ha]
      exact ih (fun c hc => h c (by simp [hc]))

/-- Splitting a single good word yields exactly that word. -/
theorem pySplitWs_single (w : PyStr) (hne : w ≠ [])
    (hgood : ∀ c ∈ w, isPySpace c = false) : pySplitWs w = [w] := by
  cases w with
  | nil => exact absurd rfl hne
  | cons c t =>
      have hc : isPySpace c = false := hgood c (by simp)
      rw [pySplitWs_cons_word hc]
      have ht : t.takeWhile (fun d => !isPySpace d) = t :=
        List.takeWhile_eq_self_iff.mpr (fun d hd => by simp [hgood d (by simp [hd])])
      have hd : t.dropWhile (fun d => !isPySpace d) = [] :=
        List.dropWhile_eq_nil_iff.mpr (fun d hd => by simp [hgood d (by simp [hd])])
      rw [ht, hd]
      rw [show pySplitWs [] = [] from by rw [pySplitWs]]

/-- Splitting a good word followed by a space boundary peels off the word. -/
theorem pySplitWs_word_space (w rest : PyStr) (hne : w ≠ [])
    (hgood : ∀ c ∈ w, isPySpace c = false) :
    pySplitWs (w ++ ' ' :: rest) = w :: pySplitWs rest := by
  cases w with
  | nil => exact absurd rfl hne
  | cons c t =>
      have hc : isPySpace c = false := hgood c (by simp)
      rw [List.cons_append, pySplitWs_cons_word hc]
      have hsp : isPySpace ' ' = true := by decide
      have hall : ∀ d ∈ t, (fun d => !isPySpace d) d = true := by
        intro d hd; simp [hgood d (by simp [hd])]
      rw [takeWhile_append_all _ t (' ' :: rest) hall,
          dropWhile_append_all _ t (' ' :: rest) hall]
      have h1 : (' ' :: rest).takeWhile (fun d => !isPySpace d) = [] := by
        simp [List.takeWhile_cons, hsp]
      have h2 : (' ' :: rest).dropWhile (fun d => !isPySpace d) = ' ' :: rest := by
        simp [List.dropWhile_cons, hsp]
      rw [h1, h2, List.append_nil]
      rw [pySplitWs_cons_space hsp]

/-- Splitting undoes joining on nonempty whitespace-free fields. -/
theorem pySplitWs_pyJoinSpace (ws : List PyStr)
    (h : ∀ w ∈ ws, w ≠ [] ∧ ∀ c ∈ w, isPySpace c = false) :
    pySplitWs (pyJoinSpace ws) = ws := by
  induction ws with
  | nil =>
      rw [show pyJoinSpace [] = [] from rfl]
      rw [pySplitWs]
  | cons w rest ih =>
      cases rest with
      | nil =>
          have hw := h w (by simp)
          simpa [pyJoinSpace] using pySplitWs_single w hw.1 hw.2
      | cons w2 rest2 =>
          have hw := h w (by simp)
          show pySplitWs (w ++ ' ' :: pyJoinSpace (w2 :: rest2)) = _
          rw [pySplitWs_word_space w _ hw.1 hw.2]
          rw [ih (fun w' hw' => h w' (List.mem_cons_of_mem _ hw'))]

/-- `normalize_whitespace` is idempotent. -/
theorem normalize_whitespace_idem (s : PyStr) :
    normalize_whitespace (normalize_whitespace s) = normalize_whitespace s := by
  unfold normalize_whitespace
  rw [pySplitWs_pyJoinSpace _ (pySplitWs_words_good s)]

/-- Characters of `normalize_whitespace s` are spaces or characters of `s`. -/
theorem mem_normalize_whitespace (s : PyStr) (c : Char)
    (hc : c ∈ normalize_whitespace s) : c = ' ' ∨ c ∈ s := by
  rcases mem_pyJoinSpace _ _ hc with h1 | ⟨w, hw, hcw⟩
  · exact Or.inl h1
  · exact Or.inr (pySplitWs_words_subset s w hw c hcw)

/-! ## Supporting lemmas: character replacements and the Unicode model -/

/-- `str.replace` does nothing when the pattern does not occur. -/
theorem pyReplace1_of_not_mem (pat : Char) (rep : PyStr) (t : PyStr)
    (h : pat ∉ t) : pyReplace1 pat rep t = t := by
  induction t with
  | nil => rfl
  | cons c rest ih =>
      rw [pyReplace1]
      have hc : c ≠ pat := fun hcp => h (hcp ▸ List.mem_cons_self _ _)
      rw [if_neg hc, List.singleton_append,
          ih (fun hm => h (List.mem_cons_of_mem _ hm))]

/-- After replacing `pat` by a `pat`-free string, `pat` is gone. -/
theorem not_mem_pyReplace1 (pat : Char) (rep : PyStr) (t : PyStr)
    (h : pat ∉ rep) : pat ∉ pyReplace1 pat rep t := by
  induction t with
  | nil => simp [pyReplace1]
  | cons c rest ih =>
      rw [pyReplace1]
      intro hm
      rcases List.mem_append.mp hm with h1 | h2
      · by_cases hc : c = pat
        · rw [if_pos hc] at h1; exact h h1
        · rw [if_neg hc] at h1
          exact hc (List.mem_singleton.mp h1).symm
      · exact ih h2

/-- Characters of a replaced string come from the replacement or the input. -/
theorem mem_pyReplace1 (pat : Char) (rep : PyStr) (t : PyStr) (c : Char)
    (hc : c ∈ pyReplace1 pat rep t) : c ∈ rep ∨ c ∈ t := by
  induction t with
  | nil => simp [pyReplace1] at hc
  | cons d rest ih =>
      rw [pyReplace1] at hc
      rcases List.mem_append.mp hc with h1 | h2
      · by_cases hd : d = pat
        · rw [if_pos hd] at h1; exact Or.inl h1
        · rw [if_neg hd] at h1
          exact Or.inr (List.mem_singleton.mp h1 ▸ List.mem_cons_self _ _)
      · rcases ih h2 with h3 | h4
        · exact Or.inl h3
        · exact Or.inr (List.mem_cons_of_mem _ h4)

/-- An all-ASCII string contains no character with code point ≥ 128. -/
theorem not_mem_of_allAscii {t : PyStr} (h : allAscii t = true) {k : Char}
    (hk : 128 ≤ k.toNat) : k ∉ t := by
  intro hm
  have := List.all_eq_true.mp h k hm
  simp only [isAsciiChar, decide_eq_true_eq] at this
  omega

/-- `common_char_replacements` fixes ASCII NUL-free strings: every
replacement key is either non-ASCII or the NUL byte. -/
theorem common_char_replacements_ascii_id (t : PyStr) (ha : allAscii t = true)
    (hn : '\u0000' ∉ t) : common_char_replacements t = t := by
  have step : ∀ k : Char, ∀ rep : PyStr, 128 ≤ k.toNat →
      pyReplace1 k rep t = t := fun k rep hk =>
    pyReplace1_of_not_mem k rep t (not_mem_of_allAscii ha hk)
  simp only [common_char_replacements, replacements_dict, List.foldl]
  rw [step _ _ (by decide), step _ _ (by decide), step _ _ (by decide),
      step _ _ (by decide), step _ _ (by decide), step _ _ (by decide),
      step _ _ (by decide), step _ _ (by decide), step _ _ (by decide),
      step _ _ (by decide), pyReplace1_of_not_mem _ _ _ hn]

/-- `common_char_replacements` output never contains NUL (the final dict
entry deletes it, and no earlier value reintroduces it). -/
theorem common_char_replacements_no_nul (t : PyStr) :
    '\u0000' ∉ common_char_replacements t := by
  simp only [common_char_replacements, replacements_dict, List.foldl]
  exact not_mem_pyReplace1 _ _ _ (by simp)

/-- Characters of `common_char_replacements t` come from `t` or from the
replacement values. -/
theorem mem_common_char_replacements (t : PyStr) (c : Char)
    (hc : c ∈ common_char_replacements t) :
    c ∈ t ∨ ∃ e ∈ replacements_dict, c ∈ e.2 := by
  simp only [common_char_replacements] at hc
  have main : ∀ (l : List (Char × PyStr)) (s : PyStr),
      c ∈ l.foldl (fun t e => pyReplace1 e.1 e.2 t) s →
      c ∈ s ∨ ∃ e ∈ l, c ∈ e.2 := by
    intro l
    induction l with
    | nil => intro s hs; exact Or.inl hs
    | cons e rest ih =>
        intro s hs
        rcases ih _ hs with h1 | ⟨e', he', hce'⟩
        · rcases mem_pyReplace1 _ _ _ _ h1 with h2 | h3
          · exact Or.inr ⟨e, by simp, h2⟩
          · exact Or.inl h3
        · exact Or.inr ⟨e', List.mem_cons_of_mem _ he', hce'⟩
  rcases main _ _ hc with h1 | h2
  · exact Or.inl h1
  · exact Or.inr (by simpa [replacements_dict] using h2)

/-- ASCII characters decompose to themselves. -/
theorem canonDecomp_ascii {c : Char} (h : c.toNat < 128) : canonDecomp c = [c] := by
  rw [canonDecomp]
  cases hf : decompTable.find? (fun e => e.1 = c) with
  | none => rfl
  | some e =>
      have he := List.mem_of_find?_eq_some hf
      have hp := List.find?_some hf
      have hall : ∀ x ∈ decompTable, 128 ≤ x.1.toNat := by decide
      have hkey : 128 ≤ e.1.toNat := hall e he
      rw [decide_eq_true_eq] at hp
      rw [hp] at hkey
      omega

/-- `nfd` fixes all-ASCII strings. -/
theorem nfd_ascii_id (s : PyStr) (h : allAscii s = true) : nfd s = s := by
  induction s with
  | nil => rfl
  | cons c rest ih =>
      have hc : c.toNat < 128 := by
        have := List.all_eq_true.mp h c (by simp)
        simpa [isAsciiChar] using this
      have hrest : allAscii rest = true :=
        List.all_eq_true.mpr fun d hd => List.all_eq_true.mp h d (by simp [hd])
      show canonDecomp c ++ nfd rest = c :: rest
      rw [canonDecomp_ascii hc, ih hrest, List.singleton_append]

/-- Characters of `nfd s` come from `s` or from decomposition values. -/
theorem mem_nfd (s : PyStr) (c : Char) (hc : c ∈ nfd s) :
    c ∈ s ∨ ∃ e ∈ decompTable, c ∈ e.2 := by
  induction s with
  | nil => simp [nfd] at hc
  | cons d rest ih =>
      have hc2 : c ∈ canonDecomp d ++ nfd rest := hc
      rcases List.mem_append.mp hc2 with h1 | h2
      · rw [canonDecomp] at h1
        cases hf : decompTable.find? (fun e => e.1 = d) with
        | none => rw [hf] at h1; exact Or.inl (List.mem_singleton.mp h1 ▸ List.mem_cons_self _ _)
        | some e =>
            rw [hf] at h1
            exact Or.inr ⟨e, List.mem_of_find?_eq_some hf, h1⟩
      · rcases ih h2 with h3 | h4
        · exact Or.inl (List.mem_cons_of_mem _ h3)
        · exact Or.inr h4

/-- ASCII characters are not combining marks. -/
theorem pyCategoryIsM_ascii {c : Char} (h : c.toNat < 128) :
    pyCategoryIsM c = false := by
  simp only [pyCategoryIsM, Bool.and_eq_false_iff, decide_eq_false_iff_not]
  left
  omega

/-- Nothing composes with an ASCII second character. -/
theorem canonCompose_ascii {a b : Char} (h : b.toNat < 128) :
    canonCompose a b = none := by
  rw [canonCompose]
  cases hf : composeTable.find? (fun e => e.1.1 = a && e.1.2 = b) with
  | none => rfl
  | some e =>
      have he := List.mem_of_find?_eq_some hf
      have hp := List.find?_some hf
      have hall : ∀ x ∈ composeTable, 768 ≤ x.1.2.toNat := by decide
      have hkey : 768 ≤ e.1.2.toNat := hall e he
      simp only [Bool.and_eq_true, decide_eq_true_eq] at hp
      rw [hp.2] at hkey
      omega

/-- `nfc` fixes all-ASCII strings. -/
theorem nfc_ascii_id (s : PyStr) (h : allAscii s = true) : nfc s = s := by
  induction s using nfc.induct with
  | case1 => rw [nfc]
  | case2 a => rw [nfc]
  | case3 a b rest c hcomp ih =>
      have hb : b.toNat < 128 := by
        have := List.all_eq_true.mp h b (by simp)
        simpa [isAsciiChar] using this
      rw [canonCompose_ascii hb] at hcomp
      exact absurd hcomp (by simp)
  | case4 a b rest hcomp ih =>
      have hrest : allAscii (b :: rest) = true :=
        List.all_eq_true.mpr fun d hd => List.all_eq_true.mp h d (by simp [List.mem_cons.mp hd])
      rw [nfc, hcomp]
      rw [ih hrest]

/-- Characters of `nfc s` come from `s` or from composition results. -/
theorem mem_nfc (s : PyStr) (c : Char) (hc : c ∈ nfc s) :
    c ∈ s ∨ ∃ e ∈ composeTable, c = e.2 := by
  induction s using nfc.induct with
  | case1 => rw [nfc] at hc; simp at hc
  | case2 a => rw [nfc] at hc; exact Or.inl hc
  | case3 a b rest d hcomp ih =>
      rw [nfc, hcomp] at hc
      rcases ih hc with h1 | h2
      · rcases List.mem_cons.mp h1 with h0 | h3
        · -- c is the composed character d: find it in the table
          rw [canonCompose] at hcomp
          cases hf : composeTable.find? (fun e => e.1.1 = a && e.1.2 = b) with
          | none => rw [hf] at hcomp; simp at hcomp
          | some e =>
              rw [hf] at hcomp
              have hd : e.2 = d := by simpa using hcomp
              exact Or.inr ⟨e, List.mem_of_find?_eq_some hf, h0.trans hd.symm⟩
        · exact Or.inl (List.mem_cons_of_mem _ (List.mem_cons_of_mem _ h3))
      · exact Or.inr h2
  | case4 a b rest hcomp ih =>
      rw [nfc, hcomp] at hc
      rcases List.mem_cons.mp hc with rfl | h1
      · exact Or.inl (List.mem_cons_self _ _)
      · rcases ih h1 with h2 | h3
        · exact Or.inl (List.mem_cons_of_mem _ h2)
        · exact Or.inr h3

/-- `unidecodeChar` always produces ASCII output. -/
theorem unidecodeChar_ascii (c : Char) : allAscii (unidecodeChar c) = true := by
  rw [unidecodeChar]
  by_cases h : c.toNat < 128
  · rw [if_pos h]
    simp [allAscii, isAsciiChar, h]
  · rw [if_neg h]
    cases hf : unidecodeTable.find? (fun e => e.1 = c) with
    | none => rfl
    | some e =>
        have hall : ∀ x ∈ unidecodeTable, allAscii x.2 = true := by decide
        exact hall e (List.mem_of_find?_eq_some hf)

/-- `unidecodeChar` is the identity on ASCII characters. -/
theorem unidecodeChar_ascii_id {c : Char} (h : c.toNat < 128) :
    unidecodeChar c = [c] := by
  rw [unidecodeChar, if_pos h]

/-- `unidecodeChar` never produces NUL except from NUL itself. -/
theorem not_nul_unidecodeChar {c : Char} (h : c ≠ '\u0000') :
    '\u0000' ∉ unidecodeChar c := by
  rw [unidecodeChar]
  by_cases ha : c.toNat < 128
  · rw [if_pos ha]
    simpa using fun heq => h heq.symm
  · rw [if_neg ha]
    cases hf : unidecodeTable.find? (fun e => e.1 = c) with
    | none => simp
    | some e =>
        have hall : ∀ x ∈ unidecodeTable, '\u0000' ∉ x.2 := by decide
        exact hall e (List.mem_of_find?_eq_some hf)

/-- The `unidecode` fold always produces ASCII output. -/
theorem foldr_unidecode_ascii (l : PyStr) :
    allAscii (List.foldr (fun c acc => unidecodeChar c ++ acc) [] l) = true := by
  induction l with
  | nil => rfl
  | cons c rest ih =>
      simp only [List.foldr_cons]
      rw [allAscii, List.all_append]
      exact Bool.and_eq_true_iff.mpr ⟨unidecodeChar_ascii c, ih⟩

/-- The `unidecode` fold fixes all-ASCII strings. -/
theorem foldr_unidecode_ascii_id (l : PyStr) (h : allAscii l = true) :
    List.foldr (fun c acc => unidecodeChar c ++ acc) [] l = l := by
  induction l with
  | nil => rfl
  | cons c rest ih =>
      have hcn : c.toNat < 128 := by
        have := List.all_eq_true.mp h c (by simp)
        simpa [isAsciiChar] using this
      have hrest : allAscii rest = true :=
        List.all_eq_true.mpr fun d hd => List.all_eq_true.mp h d (by simp [hd])
      simp only [List.foldr_cons]
      rw [unidecodeChar_ascii_id hcn, ih hrest, List.singleton_append]

/-- The output of `strip_diacritics` is all-ASCII, in both the `unidecode`
and the `encode("ascii", errors="ignore")` branch. -/
theorem strip_diacritics_ascii (hu : Bool) (s : PyStr) :
    allAscii (strip_diacritics hu s) = true := by
  cases hu with
  | false =>
      show allAscii (List.filter isAsciiChar
        (nfc (List.filter (fun c => !(pyCategoryIsM c)) (nfd s)))) = true
      exact List.all_eq_true.mpr fun c hc => List.of_mem_filter hc
  | true =>
      show allAscii (List.foldr (fun c acc => unidecodeChar c ++ acc) []
        (nfc (List.filter (fun c => !(pyCategoryIsM c)) (nfd s)))) = true
      exact foldr_unidecode_ascii _

/-- `strip_diacritics` fixes all-ASCII strings. -/
theorem strip_diacritics_ascii_id (hu : Bool) (s : PyStr)
    (h : allAscii s = true) : strip_diacritics hu s = s := by
  have hfilter : List.filter (fun c => !(pyCategoryIsM c)) (nfd s) = s := by
    rw [nfd_ascii_id s h]
    apply List.filter_eq_self.mpr
    intro c hc
    have hcn : c.toNat < 128 := by
      have := List.all_eq_true.mp h c hc
      simpa [isAsciiChar] using this
    simp [pyCategoryIsM_ascii hcn]
  cases hu with
  | false =>
      show List.filter isAsciiChar
        (nfc (List.filter (fun c => !(pyCategoryIsM c)) (nfd s))) = s
      rw [hfilter, nfc_ascii_id s h]
      exact List.filter_eq_self.mpr fun c hc => List.all_eq_true.mp h c hc
  | true =>
      show List.foldr (fun c acc => unidecodeChar c ++ acc) []
        (nfc (List.filter (fun c => !(pyCategoryIsM c)) (nfd s))) = s
      rw [hfilter, nfc_ascii_id s h]
      exact foldr_unidecode_ascii_id s h

/-- Characters of the `unidecode` fold come from transliterating a source
character. -/
theorem mem_foldr_unidecode (l : PyStr) (c : Char)
    (hc : c ∈ List.foldr (fun c acc => unidecodeChar c ++ acc) [] l) :
    ∃ d ∈ l, c ∈ unidecodeChar d := by
  induction l with
  | nil => simp at hc
  | cons d rest ih =>
      simp only [List.foldr_cons] at hc
      rcases List.mem_append.mp hc with h1 | h2
      · exact ⟨d, by simp, h1⟩
      · rcases ih h2 with ⟨d', hd', hcd'⟩
        exact ⟨d', List.mem_cons_of_mem _ hd', hcd'⟩

/-- NUL does not survive the decompose–filter–recompose pipeline when it is
absent from the input. -/
theorem not_nul_cleaned (s : PyStr) (h : '\u0000' ∉ s) :
    '\u0000' ∉ nfc (List.filter (fun c => !(pyCategoryIsM c)) (nfd s)) := by
  intro hmem
  rcases mem_nfc _ _ hmem with h1 | ⟨e, he, hev⟩
  · have h2 := List.mem_of_mem_filter h1
    rcases mem_nfd _ _ h2 with h3 | ⟨e, he, hev⟩
    · exact h h3
    · have hall : ∀ x ∈ decompTable, '\u0000' ∉ x.2 := by decide
      exact hall e he hev
  · have hall : ∀ x ∈ composeTable, x.2 ≠ '\u0000' := by decide
    exact hall e he hev.symm

/-- `strip_diacritics` does not introduce NUL. -/
theorem strip_diacritics_no_nul (hu : Bool) (s : PyStr) (h : '\u0000' ∉ s) :
    '\u0000' ∉ strip_diacritics hu s := by
  cases hu with
  | false =>
      show '\u0000' ∉ List.filter isAsciiChar
        (nfc (List.filter (fun c => !(pyCategoryIsM c)) (nfd s)))
      intro hmem
      exact not_nul_cleaned s h (List.mem_of_mem_filter hmem)
  | true =>
      show '\u0000' ∉ List.foldr (fun c acc => unidecodeChar c ++ acc) []
        (nfc (List.filter (fun c => !(pyCategoryIsM c)) (nfd s)))
      intro hmem
      rcases mem_foldr_unidecode _ _ hmem with ⟨d, hd, hnd⟩
      by_cases hdn : d = '\u0000'
      · exact not_nul_cleaned s h (hdn ▸ hd)
      · exact not_nul_unidecodeChar hdn hnd

/-- The full normalization chain produces all-ASCII output. -/
theorem normalizationChain_ascii (hu : Bool) (s : PyStr) :
    allAscii (normalizationChain hu s) = true := by
  rw [normalizationChain, normalize_unicode]
  have hy := strip_diacritics_ascii hu (common_char_replacements s)
  rw [nfc_ascii_id _ hy]
  apply List.all_eq_true.mpr
  intro c hc
  rcases mem_normalize_whitespace _ _ hc with rfl | hcy
  · decide
  · exact List.all_eq_true.mp hy c hcy

/-- The full normalization chain never outputs NUL. -/
theorem normalizationChain_no_nul (hu : Bool) (s : PyStr) :
    '\u0000' ∉ normalizationChain hu s := by
  rw [normalizationChain, normalize_unicode]
  have hy := strip_diacritics_ascii hu (common_char_replacements s)
  have hyn := strip_diacritics_no_nul hu (common_char_replacements s)
    (common_char_replacements_no_nul s)
  rw [nfc_ascii_id _ hy]
  intro hmem
  rcases mem_normalize_whitespace _ _ hmem with h1 | h2
  · exact absurd h1 (by decide)
  · exact hyn h2

/-- C7: For every input string, applying the normalization chain
(`common_char_replacements`, then `strip_diacritics`, then
`normalize_unicode`, then `normalize_whitespace`) twice yields the same
result as applying it once, for either value of the `_HAS_UNIDECODE`
environment flag. -/
theorem claim_C7_normalization_chain_idempotent (hu : Bool) (s : PyStr) :
    normalizationChain hu (normalizationChain hu s) = normalizationChain hu s := by
  set y := normalizationChain hu s with hy
  have hya : allAscii y = true := normalizationChain_ascii hu s
  have hyn : '\u0000' ∉ y := normalizationChain_no_nul hu s
  rw [normalizationChain, normalize_unicode,
      common_char_replacements_ascii_id y hya hyn,
      strip_diacritics_ascii_id hu y hya,
      nfc_ascii_id y hya, hy, normalizationChain]
  exact normalize_whitespace_idem _

/-! ## Supporting lemmas: PDF large-format scan, dispatch, encodings, dates -/

/-- The early-exit cache-filling loop of `has_large_format` computes `any`. -/
theorem hasLargeFormatScan_eq_any (l : List (ℚ × ℚ)) :
    hasLargeFormatScan l = l.any (fun d => PDFFile.is_large_format_page d.1 d.2) := by
  induction l with
  | nil => rfl
  | cons d rest ih =>
      rw [hasLargeFormatScan]
      by_cases h : PDFFile.is_large_format_page d.1 d.2 = true
      · simp [h]
      · simp only [Bool.not_eq_true] at h
        simp [h, ih]

/-- The dispatch loop is `List.find?` on the computed extension. -/
theorem get_extractor_eq_find? (path : PyStr) (extractors : List ExtractorRef) :
    get_extractor_for_file path extractors =
      extractors.find?
        (fun e => decide (pyLstrip '.' (pyLower (pathSuffix path)) ∈ e.file_extensions)) := by
  induction extractors with
  | nil => rfl
  | cons e rest ih =>
      rw [get_extractor_for_file]
      by_cases h : pyLstrip '.' (pyLower (pathSuffix path)) ∈ e.file_extensions
      · rw [if_pos h, List.find?_cons_of_pos _ (by simpa using h)]
      · rw [if_neg h, List.find?_cons_of_neg _ (by simpa using h)]
        exact ih

/-- The encoding loop returns the first decodable codec's processed content,
and a `ValueError` when every codec fails. -/
theorem tryEncodings_spec (sx md : PyStr → PyStr) (f : TextFileInput)
    (encs : List PyEncoding) :
    tryEncodings sx md f encs =
      match encs.findSome? (fun enc => decodeBytes enc f.bytes) with
      | some content => .ok (textActionForSuffix sx md f.suffix content)
      | none => .error .valueError := by
  induction encs with
  | nil => rfl
  | cons enc rest ih =>
      rw [tryEncodings]
      cases hd : decodeBytes enc f.bytes with
      | some content => rw [List.findSome?_cons, hd]
      | none => rw [List.findSome?_cons, hd]; exact ih

/-- Every date kept by the validate-and-filter loop is a constructible
`datetime.date` within the configured year window. -/
theorem dateValidateFilter_spec (self : DateExtractor)
    (cands : List (Int × Int × Int)) :
    ∀ d ∈ dateValidateFilter self cands,
      isValidPyDate d.year d.month d.day = true ∧
      self.year_min ≤ d.year ∧ d.year ≤ self.year_max := by
  induction cands with
  | nil => intro d hd; simp [dateValidateFilter] at hd
  | cons c rest ih =>
      intro d hd
      rw [dateValidateFilter] at hd
      rcases hc : DateExtractor.safe_date c.1 c.2.1 c.2.2 with _ | dt
      · rw [hc] at hd
        exact ih d hd
      · rw [hc] at hd
        have hd2 : d ∈ (if self.year_min ≤ dt.year ∧ dt.year ≤ self.year_max then
            dt :: dateValidateFilter self rest else dateValidateFilter self rest) := hd
        rw [DateExtractor.safe_date] at hc
        by_cases hv : isValidPyDate c.1 c.2.1 c.2.2 = true
        · rw [if_pos hv] at hc
          by_cases hw : self.year_min ≤ dt.year ∧ dt.year ≤ self.year_max
          · rw [if_pos hw] at hd2
            rcases List.mem_cons.mp hd2 with h1 | h2
            · have hdt : dt = ⟨c.1, c.2.1, c.2.2⟩ := (Option.some_inj.mp hc).symm
              rw [h1]
              exact ⟨by rw [hdt]; exact hv, hw.1, hw.2⟩
            · exact ih d h2
          · rw [if_neg hw] at hd2
            exact ih d hd2
        · rw [if_neg hv] at hc
          exact absurd hc (by simp)

/-! ## The claims -/

/-- C9: a page of `w × h` inches is flagged large-format iff
`max(w, h) ≥ 24` or `w * h ≥ 800`; a 10 × 10 in page is not large-format, a
25 × 2 in page is; and a freshly constructed `PDFFile` handle reports
`has_large_format` exactly when some page satisfies the predicate. -/
theorem claim_C9_large_format (w h : ℚ) (pc : Nat) (enc : Bool) (sz : Nat)
    (rects : List (ℚ × ℚ)) :
    (PDFFile.is_large_format_page w h = true ↔ 24 ≤ max w h ∨ 800 ≤ w * h) ∧
    PDFFile.is_large_format_page 10 10 = false ∧
    PDFFile.is_large_format_page 25 2 = true ∧
    (PDFFile.init pc enc sz rects).has_large_format =
      (PDFFile.init pc enc sz rects).pages_dims.any
        (fun d => PDFFile.is_large_format_page d.1 d.2) := by
  refine ⟨?_, by norm_num [PDFFile.is_large_format_page], by norm_num [PDFFile.is_large_format_page], ?_⟩
  · rw [PDFFile.is_large_format_page]
    simp only [Bool.or_eq_true, decide_eq_true_eq]
  · rw [PDFFile.has_large_format]
    exact hasLargeFormatScan_eq_any _

/-- C5: the dispatch coordinator returns the first extractor in list order
whose declared `file_extensions` contain the path's lowercased,
dot-stripped extension, and `None` exactly when no extractor matches. -/
theorem claim_C5_dispatch_first_match (path : PyStr)
    (extractors : List ExtractorRef) :
    (∀ e : ExtractorRef, get_extractor_for_file path extractors = some e ↔
      pyLstrip '.' (pyLower (pathSuffix path)) ∈ e.file_extensions ∧
      ∃ l1 l2, extractors = l1 ++ e :: l2 ∧
        ∀ x ∈ l1, pyLstrip '.' (pyLower (pathSuffix path)) ∉ x.file_extensions) ∧
    (get_extractor_for_file path extractors = none ↔
      ∀ e ∈ extractors, pyLstrip '.' (pyLower (pathSuffix path)) ∉ e.file_extensions) := by
  rw [get_extractor_eq_find?]
  constructor
  · intro e
    rw [List.find?_eq_some]
    constructor
    · rintro ⟨hp, l1, l2, heq, hall⟩
      refine ⟨by simpa using hp, l1, l2, heq, ?_⟩
      intro x hx
      have := hall x hx
      simpa using this
    · rintro ⟨hp, l1, l2, heq, hall⟩
      refine ⟨by simpa using hp, l1, l2, heq, ?_⟩
      intro x hx
      have := hall x hx
      simpa using this
  · rw [List.find?_eq_none]
    constructor
    · intro hnone e he
      have := hnone e he
      simpa using this
    · intro hall e he
      have := hall e he
      simpa using this

/-- C4: `SpreadsheetTextExtractor.__init__` never assigns the
`fallback_extractor` attribute, so when a caught read error mentions
"zip file" the handler's attribute access itself fails with
`AttributeError` instead of running any fallback extraction. -/
theorem claim_C4_spreadsheet_fallback_unusable (sheets : PyStr)
    (ihdr ifrm : Bool) (mr mc : Option Nat) (delim : PyStr)
    (path msg : PyStr)
    (hmsg : pyIn (pystr "zip file") (pyLower msg) = true) :
    (SpreadsheetTextExtractor.init sheets ihdr ifrm mr mc delim).fallback_extractor = none ∧
    (SpreadsheetTextExtractor.init sheets ihdr ifrm mr mc delim).call path (.error msg) =
      .error .attributeError := by
  refine ⟨rfl, ?_⟩
  rw [SpreadsheetTextExtractor.call]
  rw [if_pos hmsg]
  rfl

/-- Witness for C4: a pandas `BadZipFile`-style message takes the
`AttributeError` path on a default-constructed extractor. -/
theorem claim_C4_witness :
    pyIn (pystr "zip file") (pyLower (pystr "File is not a zip file")) = true ∧
    (SpreadsheetTextExtractor.init (pystr "all") true false (some 5000) (some 50)
        (pystr "\t")).call (pystr "book.xlsx")
        (.error (pystr "File is not a zip file")) = .error .attributeError :=
  ⟨by decide,
   (claim_C4_spreadsheet_fallback_unusable (pystr "all") true false (some 5000)
      (some 50) (pystr "\t") (pystr "book.xlsx") (pystr "File is not a zip file")
      (by decide)).2⟩

/-- C10: every date `DateExtractor.__call__` returns is a valid calendar
date whose year lies in the configured window (`1960 … 2035` for the
default construction), and empty input yields the empty list. -/
theorem claim_C10_dates_valid_and_windowed (self : DateExtractor) (txt : PyStr)
    (ms : DateMatches) (out : List PyDate)
    (hout : DateExtractor.call self txt ms = .ok out) :
    (∀ d ∈ out, isValidPyDate d.year d.month d.day = true ∧
       self.year_min ≤ d.year ∧ d.year ≤ self.year_max) ∧
    (txt = [] → out = []) ∧
    DateExtractor.init.year_min = 1960 ∧ DateExtractor.init.year_max = 2035 := by
  rw [DateExtractor.call] at hout
  by_cases htxt : txt.isEmpty = true
  · rw [if_pos htxt] at hout
    have : out = [] := (Option.some_inj.mp (by simpa using hout)).symm
    exact ⟨by simp [this], fun _ => this, rfl, rfl⟩
  · rw [if_neg htxt] at hout
    refine ⟨?_, fun he => absurd (by simp [he]) htxt, rfl, rfl⟩
    rcases hm : ms.mon.mapM (fun e =>
        match month_to_number_map (pyLower (e.1.take 3)) with
        | some m => some (e.2.2, m, e.2.1)
        | none => none) with _ | monCands
    · rw [hm] at hout
      exact absurd hout (by simp)
    · rw [hm] at hout
      have hfilter := Option.some_inj.mp (by simpa using hout)
      intro d hd
      rw [← hfilter] at hd
      exact dateValidateFilter_spec self _ d hd

/-- Witness for C10: an ISO match is validated, windowed and returned. -/
theorem claim_C10_witness :
    isValidPyDate (⟨2024, 6, 5⟩ : PyDate).year (⟨2024, 6, 5⟩ : PyDate).month
        (⟨2024, 6, 5⟩ : PyDate).day = true ∧
      DateExtractor.init.year_min ≤ (⟨2024, 6, 5⟩ : PyDate).year ∧
      (⟨2024, 6, 5⟩ : PyDate).year ≤ DateExtractor.init.year_max :=
  (claim_C10_dates_valid_and_windowed DateExtractor.init (pystr "dated 2024-06-05")
    ⟨[(2024, 6, 5)], [], [], [], []⟩ [⟨2024, 6, 5⟩] (by rfl)).1
    ⟨2024, 6, 5⟩ (by decide)

/-- A validated, genuine PDF is processed identically in the in-memory and
temp-file branches: the call reduces to the encryption gate followed by
`_fitz_doc_text`. -/
theorem pdf_call_valid (self : PDFTextExtractor) (input : PdfInput)
    (orc : OcrParams → PyStr) (hex : input.pathExists = true)
    (hf : input.isFile = true) (hp : input.isPdf = true) :
    self.call input orc =
      if input.isEncrypted then
        { result := .error .valueError, extractionEntered := false, ocrCall := none }
      else
        { result := .ok (self.fitz_doc_text input.pageTexts
            (PDFFile.init input.pageCount input.isEncrypted input.sizeBytes
              input.pageRectsPt) orc).text,
          extractionEntered := true,
          ocrCall := (self.fitz_doc_text input.pageTexts
            (PDFFile.init input.pageCount input.isEncrypted input.sizeBytes
              input.pageRectsPt) orc).ocrCall } := by
  rw [PDFTextExtractor.call]
  rw [if_neg (by simp [hex, hf])]
  rw [if_neg (by simp [hp])]
  by_cases henc : input.isEncrypted = true
  · simp [PDFFile.init, henc]
  · simp only [Bool.not_eq_true] at henc
    simp [PDFFile.init, henc]

/-- The escalation body of `_fitz_doc_text` when the direct text is short:
OCR runs once on the (possibly adapted) parameter dict and its output is
returned. -/
theorem fitz_doc_text_short (self : PDFTextExtractor) (pageTexts : List PyStr)
    (pdf : PDFFile) (orc : OcrParams → PyStr)
    (hlen : (pageTexts.foldl (fun acc t => acc ++ t) []).length < 100) :
    self.fitz_doc_text pageTexts pdf orc =
      { text := orc (ocrEscalatedParams self pdf),
        ocrCall := some (ocrEscalatedParams self pdf) } := by
  rw [PDFTextExtractor.fitz_doc_text, ocrEscalatedParams]
  rw [if_neg (by omega)]

/-- The direct branch of `_fitz_doc_text`: long enough text is returned
as-is with no OCR. -/
theorem fitz_doc_text_long (self : PDFTextExtractor) (pageTexts : List PyStr)
    (pdf : PDFFile) (orc : OcrParams → PyStr)
    (hlen : 100 ≤ (pageTexts.foldl (fun acc t => acc ++ t) []).length) :
    self.fitz_doc_text pageTexts pdf orc =
      { text := pageTexts.foldl (fun acc t => acc ++ t) [], ocrCall := none } := by
  rw [PDFTextExtractor.fitz_doc_text]
  rw [if_pos (by omega)]

/-- C3: an encrypted PDF makes `PDFTextExtractor.__call__` raise
`ValueError` as a terminal failure, before any page text is extracted and
before OCR can run. -/
theorem claim_C3_encrypted_rejected (self : PDFTextExtractor) (input : PdfInput)
    (orc : OcrParams → PyStr) (hex : input.pathExists = true)
    (hf : input.isFile = true) (hp : input.isPdf = true)
    (henc : input.isEncrypted = true) :
    self.call input orc =
      { result := .error .valueError, extractionEntered := false, ocrCall := none } := by
  rw [pdf_call_valid self input orc hex hf hp, if_pos (by simp [henc])]

/-- Witness for C3: a concrete encrypted one-page PDF. -/
theorem claim_C3_witness :
    (PDFTextExtractor.init 4).call
      { pathExists := true, isFile := true, isPdf := true, isEncrypted := true,
        sizeBytes := 5000, pageCount := 1, pageRectsPt := [(612, 792)],
        pageTexts := [pystr "secret"] } (fun _ => pystr "ocr") =
      { result := .error .valueError, extractionEntered := false, ocrCall := none } :=
  claim_C3_encrypted_rejected (PDFTextExtractor.init 4) _ _ rfl rfl rfl rfl

/-- C2: for a valid unencrypted PDF, direct text of length at least 100 is
returned as-is with no OCR; shorter direct text triggers exactly one OCR
call whose output is returned. -/
theorem claim_C2_ocr_trigger (self : PDFTextExtractor) (input : PdfInput)
    (orc : OcrParams → PyStr) (hex : input.pathExists = true)
    (hf : input.isFile = true) (hp : input.isPdf = true)
    (henc : input.isEncrypted = false) :
    (100 ≤ (input.pageTexts.foldl (fun acc t => acc ++ t) []).length →
      self.call input orc =
        { result := .ok (input.pageTexts.foldl (fun acc t => acc ++ t) []),
          extractionEntered := true, ocrCall := none }) ∧
    ((input.pageTexts.foldl (fun acc t => acc ++ t) []).length < 100 →
      (self.call input orc).ocrCall =
          some (ocrEscalatedParams self
            (PDFFile.init input.pageCount input.isEncrypted input.sizeBytes
              input.pageRectsPt)) ∧
      (self.call input orc).result =
          .ok (orc (ocrEscalatedParams self
            (PDFFile.init input.pageCount input.isEncrypted input.sizeBytes
              input.pageRectsPt)))) := by
  rw [pdf_call_valid self input orc hex hf hp, if_neg (by simp [henc])]
  constructor
  · intro hlen
    rw [fitz_doc_text_long self _ _ _ hlen]
  · intro hlen
    rw [fitz_doc_text_short self _ _ _ hlen]
    exact ⟨rfl, rfl⟩

/-- Witness for C2: a one-page scan with empty direct text goes through
OCR and returns the oracle text; a 100-character direct text is returned
untouched. -/
theorem claim_C2_witness :
    ((PDFTextExtractor.init 4).call
        { pathExists := true, isFile := true, isPdf := true, isEncrypted := false,
          sizeBytes := 5000, pageCount := 1, pageRectsPt := [(612, 792)],
          pageTexts := [[]] } (fun _ => pystr "from the ocr")).result =
      .ok (pystr "from the ocr") :=
  ((claim_C2_ocr_trigger (PDFTextExtractor.init 4)
      { pathExists := true, isFile := true, isPdf := true, isEncrypted := false,
        sizeBytes := 5000, pageCount := 1, pageRectsPt := [(612, 792)],
        pageTexts := [[]] } (fun _ => pystr "from the ocr")
      rfl rfl rfl rfl).2 (by decide)).2

/-- C1 counterexample: for the default-constructed extractor (the only
construction path the application uses, with no explicit override), a
one-page letter-size scan with empty direct text is OCR'd with
`tesseract_timeout = 300` — not `min(300, 1 * 45) = 45` — and with
`max_image_mpixels = 250` — neither 300 nor 1000 — because
`__init__` pre-populates both keys with truthy values, so the adaptive
branch of `_fitz_doc_text` never fires. -/
theorem claim_C1_counterexample :
    ((PDFTextExtractor.init 4).call
        { pathExists := true, isFile := true, isPdf := true, isEncrypted := false,
          sizeBytes := 5000, pageCount := 1, pageRectsPt := [(612, 792)],
          pageTexts := [[]] } (fun _ => pystr "ocr")).ocrCall =
      some (PDFTextExtractor.init 4).ocr_params ∧
    (PDFTextExtractor.init 4).ocr_params.tesseract_timeout = some 300 ∧
    min 300 (1 * 45) = 45 ∧
    (PDFTextExtractor.init 4).ocr_params.tesseract_timeout ≠ some (min 300 (1 * 45)) ∧
    (PDFTextExtractor.init 4).ocr_params.max_image_mpixels = some 250 ∧
    (PDFTextExtractor.init 4).ocr_params.max_image_mpixels ≠ some 300 ∧
    (PDFTextExtractor.init 4).ocr_params.max_image_mpixels ≠ some 1000 := by
  refine ⟨?_, rfl, rfl, by decide, rfl, by decide, by decide⟩
  decide

/-- C1 (amended): the adaptive OCR parameters apply only when the
corresponding `ocr_params` entries are absent or falsy.  For an extractor
whose `tesseract_timeout` and `max_image_mpixels` entries are both falsy,
a short-direct-text PDF is OCR'd with `tesseract_timeout =
min(300, page_count * 45)` and `max_image_mpixels = 1000` if some page is
large-format, else `300`.  (The default `__init__` sets both entries
truthy — 300 and 250 — so the default-constructed extractor never takes
this path, as the counterexample shows.) -/
theorem claim_C1_amended (self : PDFTextExtractor) (input : PdfInput)
    (orc : OcrParams → PyStr) (hex : input.pathExists = true)
    (hf : input.isFile = true) (hp : input.isPdf = true)
    (henc : input.isEncrypted = false)
    (hlen : (input.pageTexts.foldl (fun acc t => acc ++ t) []).length < 100)
    (htt : optFalsy self.ocr_params.tesseract_timeout = true)
    (hmp : optFalsy self.ocr_params.max_image_mpixels = true) :
    (self.call input orc).ocrCall =
      some { self.ocr_params with
        tesseract_timeout := some (min 300 (input.pageCount * 45)),
        max_image_mpixels := some
          (if (PDFFile.init input.pageCount input.isEncrypted input.sizeBytes
              input.pageRectsPt).has_large_format then 1000 else 300) } := by
  rw [pdf_call_valid self input orc hex hf hp, if_neg (by simp [henc])]
  rw [fitz_doc_text_short self _ _ _ hlen]
  rw [ocrEscalatedParams]
  rw [if_pos htt]
  rw [if_pos (by simpa using hmp)]
  rfl

/-- Witness for C1 (amended): an extractor with falsy entries gets the
adaptive timeout 45 = min(300, 1*45) and 300 megapixels on a one-page
letter-size scan. -/
theorem claim_C1_amended_witness :
    ((PDFTextExtractor.mk
        { (PDFTextExtractor.init 4).ocr_params with
            tesseract_timeout := none, max_image_mpixels := none }
        (100 * 1024 * 1024)).call
      { pathExists := true, isFile := true, isPdf := true, isEncrypted := false,
        sizeBytes := 5000, pageCount := 1, pageRectsPt := [(612, 792)],
        pageTexts := [[]] } (fun _ => pystr "ocr")).ocrCall =
      some { (PDFTextExtractor.init 4).ocr_params with
        tesseract_timeout := some 45, max_image_mpixels := some 300 } := by
  have h := claim_C1_amended
    (PDFTextExtractor.mk
      { (PDFTextExtractor.init 4).ocr_params with
          tesseract_timeout := none, max_image_mpixels := none }
      (100 * 1024 * 1024))
    { pathExists := true, isFile := true, isPdf := true, isEncrypted := false,
      sizeBytes := 5000, pageCount := 1, pageRectsPt := [(612, 792)],
      pageTexts := [[]] } (fun _ => pystr "ocr")
    rfl rfl rfl rfl (by decide) rfl rfl
  rw [h]
  have hpage : PDFFile.is_large_format_page (PDFFile.pt_to_in 612)
      (PDFFile.pt_to_in 792) = false := by
    norm_num [PDFFile.is_large_format_page, PDFFile.pt_to_in]
  have hlf : (PDFFile.init 1 false 5000 [(612, 792)]).has_large_format = false := by
    rw [PDFFile.has_large_format]
    show hasLargeFormatScan ((PDFFile.init 1 false 5000 [(612, 792)]).pages_dims) = false
    rw [PDFFile.pages_dims]
    show hasLargeFormatScan [(PDFFile.pt_to_in 612, PDFFile.pt_to_in 792)] = false
    rw [hasLargeFormatScan, if_neg (by simp [hpage]), hasLargeFormatScan]
  simp only [PdfInput.pageCount, PdfInput.isEncrypted, PdfInput.sizeBytes,
    PdfInput.pageRectsPt]
  rw [hlf]
  rfl

/-- C6: for a plain-text file (neither `.xml` nor `.md`),
`TextFileTextExtractor.__call__` tries utf-8, latin-1, cp1252 and ascii in
that order, returns the content decoded by the first codec that succeeds,
and raises a `ValueError` decoding error when every configured codec
fails. -/
theorem claim_C6_encoding_order (sx md : PyStr → PyStr) (f : TextFileInput)
    (hx : pyLower f.suffix ≠ pystr ".xml") (hm : pyLower f.suffix ≠ pystr ".md") :
    TextFileTextExtractor.init.call sx md f =
      match [PyEncoding.utf8, .latin1, .cp1252, .ascii].findSome?
          (fun enc => decodeBytes enc f.bytes) with
      | some content => .ok content
      | none => .error .valueError := by
  rw [TextFileTextExtractor.call]
  rw [tryEncodings_spec]
  show (match [PyEncoding.utf8, .latin1, .cp1252, .ascii].findSome?
      (fun enc => decodeBytes enc f.bytes) with
    | some content => Except.ok (textActionForSuffix sx md f.suffix content)
    | none => Except.error PyErr.valueError) = _
  cases hfd : [PyEncoding.utf8, .latin1, .cp1252, .ascii].findSome?
      (fun enc => decodeBytes enc f.bytes) with
  | none => rfl
  | some content =>
      show Except.ok (textActionForSuffix sx md f.suffix content) = .ok content
      rw [textActionForSuffix, if_neg hx, if_neg hm]

/-- Witness for C6: a UTF-8 file decodes under the first codec; its
accented content shows utf-8 (not latin-1) was the codec used. -/
theorem claim_C6_witness :
    TextFileTextExtractor.init.call id id
      { bytes := [0x63, 0x61, 0x66, 0xC3, 0xA9], suffix := pystr ".txt" } =
      .ok (pystr "café") := by
  rw [claim_C6_encoding_order id id
    { bytes := [0x63, 0x61, 0x66, 0xC3, 0xA9], suffix := pystr ".txt" }
    (by decide) (by decide)]
  rfl

/-- C8: `extract_and_normalize_text` is total and returns the empty string
when the extractor produced no text, and an empty or whitespace-only
normalized result makes `index_post` take the distinguished non-error
"no text could be extracted" outcome instead of raising. -/
theorem claim_C8_no_text_outcome (hu : Bool) (raw : PyStr)
    (h : extract_and_normalize_text hu raw = [] ∨
         pyStrip (extract_and_normalize_text hu raw) = []) :
    index_post_extraction hu (.ok raw) = .ok .noTextError ∧
    extract_and_normalize_text hu [] = [] := by
  constructor
  · rw [index_post_extraction]
    rcases h with h | h
    · rw [if_pos (by simp [h])]
    · rw [if_pos (by simp [h])]
  · rfl

/-- Witness for C8: an extractor that produced no text yields the empty
string and the "no text" outcome. -/
theorem claim_C8_witness :
    index_post_extraction true (.ok []) = .ok .noTextError ∧
    extract_and_normalize_text true [] = [] :=
  claim_C8_no_text_outcome true [] (Or.inl rfl)
